import Mathlib

/-!
Shallow embedding of the nvidia_exporter repository (src/nvml.go and
src/nvidia_exporter.go) together with proofs about the telemetry
collection-and-publication cycle.

The hardware layer is modelled by baking the outcome of each NVML query
into the `Device` record: each query either returns a value or fails,
exactly the `(value, err)` shape of the Go functions.  All machine
integers produced by the NVML layer are unsigned (`C.uint`), so they are
modelled as `Nat`; Go's truncating integer division on nonnegative
values coincides with `Nat` division.  Memory counters (`int64` in Go)
are modelled as `Int`; no arithmetic is performed on them.
-/

namespace NvidiaExporter

/-- NVMLMemory mirrors the struct of the same name in src/nvml.go:
free, total and used framebuffer memory in bytes. -/
structure NVMLMemory where
  Free : Int
  Total : Int
  Used : Int
deriving DecidableEq, Repr

/-- Device mirrors the struct of the same name in src/nvml.go.  The cgo
handle is replaced by the outcomes of the five point-in-time queries the
collector performs; `Except.error ()` models a non-`NVML_SUCCESS` return
from the driver. -/
structure Device where
  DeviceUUID : String
  DeviceName : String
  utilResult : Except Unit (Nat × Nat)
  tempResult : Except Unit Nat
  powerResult : Except Unit Nat
  fanResult : Except Unit Nat
  memResult : Except Unit NVMLMemory

/-- Embeds Device.GetUtilization (src/nvml.go, lines 110-119): returns
the pair (gpu percent, memory percent) or the driver error. -/
def Device.GetUtilization (d : Device) : Except Unit (Nat × Nat) :=
  d.utilResult

/-- Embeds Device.GetTemperature (src/nvml.go, lines 130-139): reads the
raw Celsius value as a native integer and returns the pair
(tempF, tempC) with tempF = tempC*9/5 + 32 in truncating integer
arithmetic, or the driver error. -/
def Device.GetTemperature (d : Device) : Except Unit (Nat × Nat) :=
  d.tempResult.map (fun tempC => (tempC * 9 / 5 + 32, tempC))

/-- Embeds Device.GetPowerUsage (src/nvml.go, lines 122-127): the raw
milliwatt reading divided by 1000 with truncating integer division, or
the driver error. -/
def Device.GetPowerUsage (d : Device) : Except Unit Nat :=
  d.powerResult.map (fun usage => usage / 1000)

/-- Modelled from the spec: the repository calls `Device.GetFanSpeed`
from the collector but its definition is not among the provided source
files.  Per the spec it is
`Device.GetFanSpeed() -> (percent:int) | Error`: the fan speed as a
percent of maximum, or the driver error. -/
def Device.GetFanSpeed (d : Device) : Except Unit Nat :=
  d.fanResult

/-- Embeds Device.GetMemoryInfo (src/nvml.go, lines 142-154): the
free/total/used byte counters, or the driver error. -/
def Device.GetMemoryInfo (d : Device) : Except Unit NVMLMemory :=
  d.memResult

/-- The nine per-device metric names of the gaugeMetrics catalog in
src/nvidia_exporter.go, lines 27-64. -/
inductive MetricName where
  | power_watts
  | fan_speed
  | gpu_percent
  | memory_free
  | memory_total
  | memory_used
  | memory_percent
  | temperature_fahrenheit
  | temperature_celsius
deriving DecidableEq, Repr

/-- All nine catalog entries, the key set of the gaugeMetrics map. -/
def metricNames : List MetricName :=
  [.power_watts, .fan_speed, .gpu_percent, .memory_free, .memory_total,
   .memory_used, .memory_percent, .temperature_fahrenheit, .temperature_celsius]

/-- The label-value tuple (device_id, device_uuid, device_name) attached
to every per-device sample. -/
abbrev Labels := String × String × String

/-- One GaugeVec's current contents: samples keyed by label tuple. -/
abbrev Series := List (Labels × Int)

/-- Embeds vec.WithLabelValues(...).Set(v): replace the sample keyed by
the label tuple if present, otherwise create it. -/
def setSample (s : Series) (l : Labels) (v : Int) : Series :=
  if l ∈ s.map Prod.fst then
    s.map (fun p => if p.1 = l then (l, v) else p)
  else
    s ++ [(l, v)]

/-- The contents of the exporter's gauges map; the key set is fixed to
the metric catalog, as in the Go code where NewExporter populates the
map once and nothing ever adds or removes keys. -/
abbrev GaugeMap := MetricName → Series

/-- Pointwise update of one series in the gauges map. -/
def GaugeMap.set (g : GaugeMap) (n : MetricName) (l : Labels) (v : Int) : GaugeMap :=
  fun m => if m = n then setSample (g n) l v else g m

/-- Embeds strconv.Itoa on the nonnegative loop indices: decimal digit
characters, most significant first, with 0 rendered as the string 0. -/
def itoa (n : Nat) : String :=
  if n = 0 then "0" else ⟨((Nat.digits 10 n).map Nat.digitChar).reverse⟩

/-- The label tuple used for device number idx in
Exporter.GetTelemetryFromNVML: (strconv.Itoa(idx), uuid, name). -/
def deviceLabels (idx : Nat) (d : Device) : Labels :=
  (itoa idx, d.DeviceUUID, d.DeviceName)

/-- Exporter mirrors the struct of the same name in
src/nvidia_exporter.go: the health gauge `up`, the per-metric gauge
vectors, and the device list fixed at construction. -/
structure Exporter where
  up : Int
  gauges : GaugeMap
  devices : List Device

/-- One iteration of the device loop in Exporter.GetTelemetryFromNVML
(src/nvidia_exporter.go, lines 126-156): issue the five queries in
order (utilization, temperature, power, fan speed, memory info),
writing each successful reading into its series before the next query;
on the first failing query jump to ErrorFetching, returning the gauges
written so far as `Except.error`. -/
def processDevice (idx : Nat) (d : Device) (g : GaugeMap) : Except GaugeMap GaugeMap :=
  let l := deviceLabels idx d
  match d.GetUtilization with
  | .error _ => .error g
  | .ok (gpuPercent, memoryPercent) =>
    let g := (g.set .gpu_percent l gpuPercent).set .memory_percent l memoryPercent
    match d.GetTemperature with
    | .error _ => .error g
    | .ok (tempF, tempC) =>
      let g := (g.set .temperature_celsius l tempC).set .temperature_fahrenheit l tempF
      match d.GetPowerUsage with
      | .error _ => .error g
      | .ok powerUsage =>
        let g := g.set .power_watts l powerUsage
        match d.GetFanSpeed with
        | .error _ => .error g
        | .ok fanSpeed =>
          let g := g.set .fan_speed l fanSpeed
          match d.GetMemoryInfo with
          | .error _ => .error g
          | .ok gpuMem =>
            .ok (((g.set .memory_free l gpuMem.Free).set
                    .memory_total l gpuMem.Total).set .memory_used l gpuMem.Used)

/-- The device loop of Exporter.GetTelemetryFromNVML: walk the devices
in enumeration order starting at index idx; on the first failing query
stop at once, reporting failure (the Bool is false); otherwise process
every device and report success. -/
def telemetryLoop : Nat → List Device → GaugeMap → GaugeMap × Bool
  | _, [], g => (g, true)
  | idx, d :: ds, g =>
    match processDevice idx d g with
    | .error gFail => (gFail, false)
    | .ok gOk => telemetryLoop (idx + 1) ds gOk

/-- Embeds Exporter.GetTelemetryFromNVML (src/nvidia_exporter.go,
lines 116-163): run the device loop from index 0; if it failed, set the
up gauge to 0 (the gauge is otherwise left as the caller set it). -/
def Exporter.GetTelemetryFromNVML (e : Exporter) : Exporter :=
  match telemetryLoop 0 e.devices e.gauges with
  | (g, true) => { e with gauges := g }
  | (g, false) => { e with gauges := g, up := 0 }

/-- One item sent on the Collect channel: either a labeled sample of one
of the nine per-device metrics, or the up (health) sample. -/
inductive Metric where
  | sample (name : MetricName) (l : Labels) (value : Int)
  | upSample (value : Int)
deriving DecidableEq, Repr

/-- The emission loop of Exporter.Collect: every series' current
samples, metric by metric. -/
def emitGauges (g : GaugeMap) : List Metric :=
  metricNames.flatMap (fun n => (g n).map (fun p => Metric.sample n p.1 p.2))

/-- Embeds Exporter.Collect (src/nvidia_exporter.go, lines 167-185):
reset every gauge vector, set up to 1, run GetTelemetryFromNVML, then
emit every series' samples followed by the deferred up sample.  Returns
the post-cycle exporter state and the list of metrics sent on the
channel, in order. -/
def Exporter.Collect (e : Exporter) : Exporter × List Metric :=
  let eReset : Exporter := { e with gauges := fun _ => [], up := 1 }
  let eDone := eReset.GetTelemetryFromNVML
  (eDone, emitGauges eDone.gauges ++ [Metric.upSample eDone.up])

/-! ## Analysis layer: per-cycle characterization

These definitions restate, as functions of the device data alone, what
one poll cycle writes.  They are used to state and prove the claims; the
theorems below connect them to the embedded code. -/

/-- The five query steps of the per-device sequence, in program order:
utilization, temperature, power, fan speed, memory info. -/
inductive Step where
  | util
  | temp
  | power
  | fan
  | mem
deriving DecidableEq, Repr

/-- Position of a step in the per-device query sequence. -/
def Step.pos : Step → Nat
  | .util => 0
  | .temp => 1
  | .power => 2
  | .fan => 3
  | .mem => 4

/-- The query step during which a metric's sample is written. -/
def MetricName.step : MetricName → Step
  | .gpu_percent => .util
  | .memory_percent => .util
  | .temperature_celsius => .temp
  | .temperature_fahrenheit => .temp
  | .power_watts => .power
  | .fan_speed => .fan
  | .memory_free => .mem
  | .memory_total => .mem
  | .memory_used => .mem

/-- The first query step that fails for this device, if any; the loop
body aborts the cycle at exactly this step. -/
def firstFailStep (d : Device) : Option Step :=
  match d.GetUtilization with
  | .error _ => some .util
  | .ok _ =>
    match d.GetTemperature with
    | .error _ => some .temp
    | .ok _ =>
      match d.GetPowerUsage with
      | .error _ => some .power
      | .ok _ =>
        match d.GetFanSpeed with
        | .error _ => some .fan
        | .ok _ =>
          match d.GetMemoryInfo with
          | .error _ => some .mem
          | .ok _ => none

/-- Value of a successful Except result, with a default for the error
case (only consulted under success hypotheses). -/
def okD (x : Except Unit α) (dflt : α) : α :=
  match x with
  | .ok a => a
  | .error _ => dflt

/-- The value the loop body writes into series n for device d, assuming
the corresponding query succeeded. -/
def deviceValue (n : MetricName) (d : Device) : Int :=
  match n with
  | .gpu_percent => (okD d.GetUtilization (0, 0)).1
  | .memory_percent => (okD d.GetUtilization (0, 0)).2
  | .temperature_celsius => (okD d.GetTemperature (0, 0)).2
  | .temperature_fahrenheit => (okD d.GetTemperature (0, 0)).1
  | .power_watts => okD d.GetPowerUsage 0
  | .fan_speed => okD d.GetFanSpeed 0
  | .memory_free => (okD d.GetMemoryInfo ⟨0, 0, 0⟩).Free
  | .memory_total => (okD d.GetMemoryInfo ⟨0, 0, 0⟩).Total
  | .memory_used => (okD d.GetMemoryInfo ⟨0, 0, 0⟩).Used

/-- The samples device d at index idx contributes to series n in one
cycle: one sample if the device is fully processed or fails only at a
later step than the one writing n, none otherwise. -/
def deviceContrib (n : MetricName) (idx : Nat) (d : Device) : Series :=
  match firstFailStep d with
  | none => [(deviceLabels idx d, deviceValue n d)]
  | some s =>
    if n.step.pos < s.pos then [(deviceLabels idx d, deviceValue n d)] else []

/-- The samples series n holds after one cycle over ds starting at
index idx: contributions of every device before the first failing one,
the partial contribution of the first failing device, nothing after. -/
def contribs (n : MetricName) : Nat → List Device → Series
  | _, [] => []
  | i, d :: ds =>
    match firstFailStep d with
    | none => deviceContrib n i d ++ contribs n (i + 1) ds
    | some _ => deviceContrib n i d

/-- Number of samples in a series keyed by a given label tuple. -/
def countLabel (s : Series) (l : Labels) : Nat :=
  (s.filter (fun p => p.1 = l)).length

/-- Decimal digit value of a digit character; left inverse of
Nat.digitChar below 10, used to prove itoa injective. -/
def unDigitChar (c : Char) : Nat := c.toNat - 48

/-! ## Describe: the static metric schema -/

/-- VecInfo mirrors the struct of the same name in
src/nvidia_exporter.go: prometheus help text and label dimensions. -/
structure VecInfo where
  help : String
  labels : List String
deriving DecidableEq, Repr

/-- The base namespace used by the exporter (src/nvidia_exporter.go,
line 22). -/
def DefaultNamespace : String := "nvml"

/-- The Go-side map key of each metric in the gaugeMetrics catalog. -/
def MetricName.goName : MetricName → String
  | .power_watts => "power_watts"
  | .fan_speed => "fan_speed"
  | .gpu_percent => "gpu_percent"
  | .memory_free => "memory_free"
  | .memory_total => "memory_total"
  | .memory_used => "memory_used"
  | .memory_percent => "memory_percent"
  | .temperature_fahrenheit => "temperature_fahrenheit"
  | .temperature_celsius => "temperature_celsius"

/-- The gaugeMetrics catalog of src/nvidia_exporter.go, lines 27-64:
help text and label dimensions of every per-device metric. -/
def gaugeMetricsInfo : MetricName → VecInfo
  | .power_watts =>
    ⟨"Power Usage of an NVIDIA GPU in Watts", ["device_id", "device_uuid", "device_name"]⟩
  | .fan_speed =>
    ⟨"Device Fan Speed in Percent of Maximum", ["device_id", "device_uuid", "device_name"]⟩
  | .gpu_percent =>
    ⟨"Percent of GPU Utilized", ["device_id", "device_uuid", "device_name"]⟩
  | .memory_free =>
    ⟨"Number of bytes free in the GPU Memory", ["device_id", "device_uuid", "device_name"]⟩
  | .memory_total =>
    ⟨"Total bytes of the GPU's memory", ["device_id", "device_uuid", "device_name"]⟩
  | .memory_used =>
    ⟨"Total number of bytes used in the GPU Memory", ["device_id", "device_uuid", "device_name"]⟩
  | .memory_percent =>
    ⟨"Percent of GPU Memory Utilized", ["device_id", "device_uuid", "device_name"]⟩
  | .temperature_fahrenheit =>
    ⟨"GPU Temperature in Fahrenheit", ["device_id", "device_uuid", "device_name"]⟩
  | .temperature_celsius =>
    ⟨"GPU Temperature in Celsius", ["device_id", "device_uuid", "device_name"]⟩

/-- A prometheus metric descriptor: fully qualified name, help text and
variable label names. -/
structure Desc where
  fqName : String
  help : String
  variableLabels : List String
deriving DecidableEq, Repr

/-- Descriptor of one catalog metric, as built by NewExporter
(src/nvidia_exporter.go, lines 94-100). -/
def descOf (n : MetricName) : Desc :=
  ⟨DefaultNamespace ++ "_" ++ n.goName, (gaugeMetricsInfo n).help, (gaugeMetricsInfo n).labels⟩

/-- Descriptor of the up health gauge, as built by NewExporter
(src/nvidia_exporter.go, lines 86-90). -/
def upDescStatic : Desc :=
  ⟨DefaultNamespace ++ "_" ++ "up", "Were the NVML queries successful?", []⟩

/-- ExporterFull extends the collect-cycle state with the descriptor
part of the gauges: in Go each GaugeVec carries its immutable Desc next
to its mutable samples, so the descriptors are state the cycle could in
principle touch; Describe reads them from the state. -/
structure ExporterFull where
  state : Exporter
  upD : Desc
  catalog : MetricName → Desc

/-- Embeds NewExporter (src/nvidia_exporter.go, lines 78-103) applied
to an already enumerated device list: empty gauge vectors, the up gauge
at its zero value, and one descriptor per catalog entry. -/
def NewExporter (devices : List Device) : ExporterFull :=
  ⟨⟨0, fun _ => [], devices⟩, upDescStatic, descOf⟩

/-- Embeds Exporter.Describe (src/nvidia_exporter.go, lines 107-113):
the up descriptor followed by every gauge vector's descriptor. -/
def ExporterFull.Describe (e : ExporterFull) : List Desc :=
  e.upD :: metricNames.map e.catalog

/-- One Collect call on the full state: the device readings of this
poll cycle are supplied as the per-cycle hardware input; the cycle
itself is Exporter.Collect. -/
def ExporterFull.CollectFull (e : ExporterFull) (ds : List Device) : ExporterFull × List Metric :=
  let r := (Exporter.Collect { e.state with devices := ds })
  (⟨r.1, e.upD, e.catalog⟩, r.2)

/-- A sequence of Collect calls, each with that cycle's device
readings. -/
def runCollects : ExporterFull → List (List Device) → ExporterFull
  | e, [] => e
  | e, ds :: rest => runCollects (e.CollectFull ds).1 rest

/-! ## Concurrency model

Exporter.Collect runs under e.mutex.Lock()/deferred Unlock
(src/nvidia_exporter.go, lines 168-169), with the deferred up emission
running before the deferred Unlock.  Each Collect execution is
flattened into a sequence of atomic actions; threads interleave those
actions, and the mutex is the only synchronization: a lock action needs
the mutex free, every other action is always enabled for the thread at
the head of its remaining program. -/

/-- One atomic action of a Collect execution. -/
inductive Action where
  | lock
  | unlock
  | reset
  | query (idx : Nat) (s : Step)
  | emit
deriving DecidableEq, Repr

/-- The five steps in program order. -/
def allSteps : List Step := [.util, .temp, .power, .fan, .mem]

/-- The queries the loop body issues for one device: all five on
success, the prefix up to and including the failing one otherwise. -/
def deviceQueryActions (idx : Nat) (d : Device) : List Action :=
  match firstFailStep d with
  | none => allSteps.map (Action.query idx)
  | some s => (allSteps.filter (fun t => t.pos ≤ s.pos)).map (Action.query idx)

/-- The queries GetTelemetryFromNVML issues over the device list,
stopping at the first failing device. -/
def queryActions : Nat → List Device → List Action
  | _, [] => []
  | i, d :: ds =>
    match firstFailStep d with
    | none => deviceQueryActions i d ++ queryActions (i + 1) ds
    | some _ => deviceQueryActions i d

/-- The atomic actions of one Exporter.Collect execution, in program
order: lock, reset of every vector, the device queries, the emission of
all samples and the deferred up sample, the deferred unlock. -/
def collectActions (e : Exporter) : List Action :=
  [Action.lock, Action.reset] ++ queryActions 0 e.devices ++ [Action.emit, Action.unlock]

/-- State of the interleaving system: who holds the mutex, and each
thread's remaining actions. -/
structure SysState where
  holder : Option Nat
  threads : List (List Action)

/-- Remaining program of thread t. -/
def remainingOf (σ : SysState) (t : Nat) : List Action :=
  σ.threads.getD t []

/-- One interleaving step: some thread executes the head of its
remaining program.  Lock requires the mutex free and takes it; unlock
requires the mutex held by this thread and frees it; every other action
leaves the mutex untouched. -/
inductive SysStep : SysState → SysState → Prop where
  | lockStep (σ : SysState) (t : Nat) (rest : List Action)
      (hp : remainingOf σ t = Action.lock :: rest) (hfree : σ.holder = none) :
      SysStep σ ⟨some t, σ.threads.set t rest⟩
  | bodyStep (σ : SysState) (t : Nat) (a : Action) (rest : List Action)
      (hp : remainingOf σ t = a :: rest) (hl : a ≠ Action.lock) (hu : a ≠ Action.unlock) :
      SysStep σ ⟨σ.holder, σ.threads.set t rest⟩
  | unlockStep (σ : SysState) (t : Nat) (rest : List Action)
      (hp : remainingOf σ t = Action.unlock :: rest) (hheld : σ.holder = some t) :
      SysStep σ ⟨none, σ.threads.set t rest⟩

/-- Initial state: mutex free, every thread at the start of its
program. -/
def initState (progs : List (List Action)) : SysState :=
  ⟨none, progs⟩

/-- States reachable from the initial state of the given programs. -/
def Reachable (progs : List (List Action)) (σ : SysState) : Prop :=
  Relation.ReflTransGen SysStep (initState progs) σ

/-- Thread t is inside its critical section: it has executed its
leading lock action (its remaining program is a nonempty suffix of what
follows the lock) and has not yet executed its final unlock. -/
def inCrit (progs : List (List Action)) (σ : SysState) (t : Nat) : Prop :=
  remainingOf σ t ≠ [] ∧ remainingOf σ t <:+ (progs.getD t []).tail

/-- A program of the shape Collect produces: a leading lock, a body
free of lock and unlock, a final unlock. -/
def WellFormedProg (p : List Action) : Prop :=
  ∃ body, p = Action.lock :: body ++ [Action.unlock] ∧
    Action.lock ∉ body ∧ Action.unlock ∉ body

/-- The mutex invariant: thread programs only shrink (each remaining
program is a suffix of the original), and the mutex holder is exactly
the thread inside its critical section. -/
def MutexInv (progs : List (List Action)) (σ : SysState) : Prop :=
  σ.threads.length = progs.length ∧
  (∀ t, remainingOf σ t <:+ progs.getD t []) ∧
  (∀ t, inCrit progs σ t ↔ σ.holder = some t)

/-! ## Concrete fixtures for witnesses -/

/-- The spec's end-to-end scenario device: utilization (42,17),
temperature 70 raw Celsius, power 125500 milliwatts, fan 55 percent,
memory free 1000 / total 4000 / used 3000. -/
def dOK : Device :=
  ⟨"GPU-abc", "Test-GPU", .ok (42, 17), .ok 70, .ok 125500, .ok 55, .ok ⟨1000, 4000, 3000⟩⟩

/-- A device whose temperature query fails (second step). -/
def dFailTemp : Device :=
  ⟨"GPU-def", "Test-GPU2", .ok (7, 8), .error (), .error (), .error (), .error ()⟩

/-- A healthy one-device exporter. -/
def eOne : ExporterFull := NewExporter [dOK]

/-- A two-device exporter whose second device fails at the temperature
step. -/
def eTwo : ExporterFull := NewExporter [dOK, dFailTemp]

/-- An exporter with no enumerated devices. -/
def eEmpty : ExporterFull := NewExporter []

/-- A one-device exporter whose gauge state and health flag hold junk
left over from an earlier cycle. -/
def eJunk : Exporter :=
  ⟨0, fun _ => [(("9", "stale-uuid", "stale-name"), 99)], [dOK]⟩

/-! ## Helper lemmas -/

theorem digitChar_inj_lt : ∀ a < 10, ∀ b < 10, Nat.digitChar a = Nat.digitChar b → a = b := by
  decide

theorem unDigitChar_digitChar : ∀ a < 10, unDigitChar (Nat.digitChar a) = a := by
  decide

theorem map_unDigitChar (L : List Nat) (h : ∀ x ∈ L, x < 10) :
    (L.map Nat.digitChar).map unDigitChar = L := by
  induction L with
  | nil => simp
  | cons a t ih =>
    simp only [List.map_cons, List.cons.injEq]
    exact ⟨unDigitChar_digitChar a (h a (by simp)), ih (fun x hx => h x (by simp [hx]))⟩

theorem digits_map_digitChar_eq_singleton_zero (n : Nat)
    (h : (Nat.digits 10 n).map Nat.digitChar = ['0']) : n = 0 := by
  have h10 : (1 : Nat) < 10 := by norm_num
  have hinv := map_unDigitChar (Nat.digits 10 n) (fun x hx => Nat.digits_lt_base h10 hx)
  rw [h] at hinv
  have hd : Nat.digits 10 n = [0] := by
    simpa [unDigitChar] using hinv.symm
  have hof := Nat.ofDigits_digits 10 n
  rw [hd] at hof
  simpa [Nat.ofDigits] using hof.symm

theorem itoa_injective : Function.Injective itoa := by
  intro m n h
  unfold itoa at h
  by_cases hm : m = 0 <;> by_cases hn : n = 0 <;> simp [hm, hn] at h
  · exact hm.trans hn.symm
  · exfalso
    have hdata := congrArg String.data h
    simp only [String.data] at hdata
    have hrev : (Nat.digits 10 n).map Nat.digitChar = ['0'] := by
      have hx : ((Nat.digits 10 n).map Nat.digitChar).reverse = ['0'] := hdata.symm
      simpa [List.reverse_eq_iff] using hx
    exact hn (digits_map_digitChar_eq_singleton_zero n hrev)
  · exfalso
    have hdata := congrArg String.data h
    simp only [String.data] at hdata
    have hrev : (Nat.digits 10 m).map Nat.digitChar = ['0'] := by
      simpa [List.reverse_eq_iff] using hdata
    exact hm (digits_map_digitChar_eq_singleton_zero m hrev)
  · have hdata := congrArg String.data h
    simp only [String.data] at hdata
    have hmaps : (Nat.digits 10 m).map Nat.digitChar = (Nat.digits 10 n).map Nat.digitChar := by
      have hx := congrArg List.reverse hdata
      simpa using hx
    have h10 : (1 : Nat) < 10 := by norm_num
    have h1 := map_unDigitChar (Nat.digits 10 m) (fun x hx => Nat.digits_lt_base h10 hx)
    have h2 := map_unDigitChar (Nat.digits 10 n) (fun x hx => Nat.digits_lt_base h10 hx)
    have hdig : Nat.digits 10 m = Nat.digits 10 n := by
      rw [← h1, ← h2, hmaps]
    exact Nat.digits.injective 10 hdig

theorem deviceLabels_ne_of_index_ne {i j : Nat} (d d' : Device) (h : i ≠ j) :
    deviceLabels i d ≠ deviceLabels j d' := by
  intro he
  exact h (itoa_injective (congrArg Prod.fst he))

theorem setSample_of_not_mem (s : Series) (l : Labels) (v : Int)
    (h : l ∉ s.map Prod.fst) : setSample s l v = s ++ [(l, v)] := by
  simp [setSample, h]

theorem countLabel_append (s t : Series) (l : Labels) :
    countLabel (s ++ t) l = countLabel s l + countLabel t l := by
  simp [countLabel, List.filter_append]

theorem countLabel_nil (l : Labels) : countLabel [] l = 0 := rfl

theorem countLabel_eq_zero_of_not_mem (s : Series) (l : Labels)
    (h : l ∉ s.map Prod.fst) : countLabel s l = 0 := by
  rw [countLabel, List.length_eq_zero, List.filter_eq_nil_iff]
  intro p hp
  simp only [decide_eq_true_eq]
  intro hpl
  exact h (by simp only [List.mem_map]; exact ⟨p, hp, hpl⟩)

theorem countLabel_singleton_self (l : Labels) (v : Int) : countLabel [(l, v)] l = 1 := by
  simp [countLabel]

theorem countLabel_singleton_ne (l l' : Labels) (v : Int) (h : l' ≠ l) :
    countLabel [(l, v)] l' = 0 := by
  simp [countLabel, Ne.symm h]

theorem mem_fst_deviceContrib {n : MetricName} {i : Nat} {d : Device} {l : Labels}
    (h : l ∈ (deviceContrib n i d).map Prod.fst) : l = deviceLabels i d := by
  unfold deviceContrib at h
  rcases hf : firstFailStep d with _ | s <;> rw [hf] at h
  · simpa using h
  · by_cases hlt : n.step.pos < s.pos <;> simp [hlt] at h
    exact h

theorem processDevice_eq (i : Nat) (d : Device) (g : GaugeMap)
    (hfresh : ∀ n, deviceLabels i d ∉ (g n).map Prod.fst) :
    processDevice i d g =
      match firstFailStep d with
      | none => .ok (fun n => g n ++ deviceContrib n i d)
      | some _ => .error (fun n => g n ++ deviceContrib n i d) := by
  obtain ⟨uuid, name, u, tR, pR, fR, mR⟩ := d
  simp only [deviceLabels] at hfresh
  rcases u with u | ⟨gpuP, memP⟩ <;>
    rcases tR with tR | tC <;>
      rcases pR with pR | pw <;>
        rcases fR with fR | fs <;>
          rcases mR with mR | mi <;>
  · simp only [processDevice, firstFailStep, Device.GetUtilization, Device.GetTemperature,
      Device.GetPowerUsage, Device.GetFanSpeed, Device.GetMemoryInfo, Except.map]
    congr 1
    funext n
    cases n <;>
      simp [GaugeMap.set, deviceContrib, firstFailStep, Device.GetUtilization,
        Device.GetTemperature, Device.GetPowerUsage, Device.GetFanSpeed,
        Device.GetMemoryInfo, Except.map, deviceValue, okD, Step.pos, MetricName.step,
        setSample_of_not_mem _ _ _ (hfresh _), deviceLabels]

theorem telemetryLoop_eq (ds : List Device) (i : Nat) (g : GaugeMap)
    (hfresh : ∀ (n : MetricName) (j : Nat) (hj : j < ds.length),
      deviceLabels (i + j) (ds.get ⟨j, hj⟩) ∉ (g n).map Prod.fst) :
    telemetryLoop i ds g =
      (fun n => g n ++ contribs n i ds, ds.all (fun d => (firstFailStep d).isNone)) := by
  induction ds generalizing i g with
  | nil =>
    refine Prod.ext ?_ rfl
    funext n
    simp [telemetryLoop, contribs]
  | cons d ds ih =>
    have h0 : ∀ n, deviceLabels i d ∉ (g n).map Prod.fst := by
      intro n
      have hx := hfresh n 0 (by simp)
      simpa using hx
    have hstep := processDevice_eq i d g h0
    rcases hf : firstFailStep d with _ | s <;> rw [hf] at hstep <;>
      simp only [telemetryLoop, hstep]
    · have hfresh' : ∀ (n : MetricName) (j : Nat) (hj : j < ds.length),
          deviceLabels (i + 1 + j) (ds.get ⟨j, hj⟩) ∉
            ((g n ++ deviceContrib n i d)).map Prod.fst := by
        intro n j hj
        simp only [List.map_append, List.mem_append]
        push_neg
        constructor
        · have hx := hfresh n (j + 1) (by simpa using Nat.succ_lt_succ hj)
          have harith : i + (j + 1) = i + 1 + j := by omega
          rw [harith] at hx
          simpa using hx
        · intro hmem
          have hlab := mem_fst_deviceContrib hmem
          exact deviceLabels_ne_of_index_ne _ _ (by omega : i + 1 + j ≠ i) hlab
      rw [ih (i + 1) _ hfresh']
      refine Prod.ext ?_ ?_
      · funext n
        simp [contribs, hf, List.append_assoc]
      · simp [hf]
    · refine Prod.ext ?_ ?_
      · funext n
        simp [contribs, hf]
      · simp [hf]

theorem Collect_eq (e : Exporter) :
    e.Collect =
      ({ up := if e.devices.all (fun d => (firstFailStep d).isNone) then 1 else 0,
         gauges := fun n => contribs n 0 e.devices,
         devices := e.devices },
       emitGauges (fun n => contribs n 0 e.devices) ++
         [Metric.upSample (if e.devices.all (fun d => (firstFailStep d).isNone) then 1 else 0)]) := by
  have hfresh : ∀ (n : MetricName) (j : Nat) (hj : j < e.devices.length),
      deviceLabels (0 + j) (e.devices.get ⟨j, hj⟩) ∉
        (((fun _ => []) : GaugeMap) n).map Prod.fst := by
    intro n j hj
    simp
  unfold Exporter.Collect Exporter.GetTelemetryFromNVML
  dsimp only
  rw [telemetryLoop_eq e.devices 0 (fun _ => []) hfresh]
  cases hall : e.devices.all (fun d => (firstFailStep d).isNone) <;> simp [hall]

theorem countLabel_deviceContrib_ne (n : MetricName) (i : Nat) (d : Device) (l : Labels)
    (h : l ≠ deviceLabels i d) : countLabel (deviceContrib n i d) l = 0 := by
  refine countLabel_eq_zero_of_not_mem _ _ (fun hmem => h (mem_fst_deviceContrib hmem))

theorem countLabel_deviceContrib_self (n : MetricName) (i : Nat) (d : Device) :
    countLabel (deviceContrib n i d) (deviceLabels i d) =
      match firstFailStep d with
      | none => 1
      | some s => if n.step.pos < s.pos then 1 else 0 := by
  rcases hf : firstFailStep d with _ | s <;> simp only [deviceContrib, hf]
  · exact countLabel_singleton_self _ _
  · by_cases hlt : n.step.pos < s.pos <;>
      simp [hlt, countLabel_singleton_self, countLabel_nil]

theorem mem_fst_contribs {n : MetricName} {ds : List Device} {i : Nat} {l : Labels}
    (h : l ∈ (contribs n i ds).map Prod.fst) :
    ∃ j, ∃ hj : j < ds.length, l = deviceLabels (i + j) (ds.get ⟨j, hj⟩) := by
  induction ds generalizing i with
  | nil => simp [contribs] at h
  | cons d ds ih =>
    rw [contribs] at h
    rcases hf : firstFailStep d with _ | s <;> rw [hf] at h
    · simp only [List.map_append, List.mem_append] at h
      rcases h with h | h
      · exact ⟨0, by simp, by simpa using mem_fst_deviceContrib h⟩
      · obtain ⟨j, hj, hl⟩ := ih h
        refine ⟨j + 1, by simpa using Nat.succ_lt_succ hj, ?_⟩
        have harith : i + (j + 1) = i + 1 + j := by omega
        rw [harith]
        simpa using hl
    · exact ⟨0, by simp, by simpa using mem_fst_deviceContrib h⟩

theorem countLabel_contribs_of_lt {n : MetricName} {ds : List Device} {i : Nat} {l : Labels}
    (h : ∀ (j : Nat) (hj : j < ds.length), l ≠ deviceLabels (i + j) (ds.get ⟨j, hj⟩)) :
    countLabel (contribs n i ds) l = 0 := by
  refine countLabel_eq_zero_of_not_mem _ _ (fun hmem => ?_)
  obtain ⟨j, hj, hl⟩ := mem_fst_contribs hmem
  exact h j hj hl

theorem countLabel_contribs_success (n : MetricName) (ds : List Device)
    (hall : ∀ d ∈ ds, firstFailStep d = none) :
    ∀ (i j : Nat) (hj : j < ds.length),
      countLabel (contribs n i ds) (deviceLabels (i + j) (ds.get ⟨j, hj⟩)) = 1 := by
  induction ds with
  | nil =>
    intro i j hj
    simp at hj
  | cons d ds ih =>
    intro i j hj
    have hd : firstFailStep d = none := hall d (by simp)
    rw [contribs, hd, countLabel_append]
    cases j with
    | zero =>
      have h1 : countLabel (deviceContrib n i d) (deviceLabels (i + 0) (List.get (d :: ds) ⟨0, hj⟩)) = 1 := by
        have := countLabel_deviceContrib_self n i d
        rw [hd] at this
        simpa using this
      have h2 : countLabel (contribs n (i + 1) ds) (deviceLabels (i + 0) (List.get (d :: ds) ⟨0, hj⟩)) = 0 := by
        refine countLabel_contribs_of_lt (fun j' hj' => ?_)
        simp only [List.get]
        exact deviceLabels_ne_of_index_ne _ _ (by omega : i + 0 ≠ i + 1 + j')
      rw [h1, h2]
    | succ j' =>
      have hj' : j' < ds.length := by simpa using Nat.lt_of_succ_lt_succ hj
      have h1 : countLabel (deviceContrib n i d)
          (deviceLabels (i + (j' + 1)) (List.get (d :: ds) ⟨j' + 1, hj⟩)) = 0 := by
        refine countLabel_deviceContrib_ne _ _ _ _ ?_
        exact deviceLabels_ne_of_index_ne _ _ (by omega : i + (j' + 1) ≠ i)
      have h2 := ih (fun d' hd' => hall d' (by simp [hd'])) (i + 1) j' hj'
      have harith : i + 1 + j' = i + (j' + 1) := by omega
      rw [harith] at h2
      rw [h1]
      simpa using h2

theorem countLabel_contribs_fail (n : MetricName) :
    ∀ (ds : List Device) (k : Nat) (s : Step) (hk : k < ds.length),
      (∀ (j : Nat) (hj : j < k), firstFailStep (ds.get ⟨j, Nat.lt_trans hj hk⟩) = none) →
      firstFailStep (ds.get ⟨k, hk⟩) = some s →
      ∀ (i j : Nat) (hj : j < ds.length),
        countLabel (contribs n i ds) (deviceLabels (i + j) (ds.get ⟨j, hj⟩)) =
          if j < k then 1 else if j = k then (if n.step.pos < s.pos then 1 else 0) else 0 := by
  intro ds
  induction ds with
  | nil =>
    intro k s hk
    simp at hk
  | cons d ds ih =>
    intro k s hk hpre hfail i j hj
    cases k with
    | zero =>
      have hd : firstFailStep d = some s := by simpa using hfail
      rw [contribs, hd]
      cases j with
      | zero =>
        have := countLabel_deviceContrib_self n i d
        rw [hd] at this
        simpa using this
      | succ j' =>
        have h1 : countLabel (deviceContrib n i d)
            (deviceLabels (i + (j' + 1)) (List.get (d :: ds) ⟨j' + 1, hj⟩)) = 0 := by
          refine countLabel_deviceContrib_ne _ _ _ _ ?_
          exact deviceLabels_ne_of_index_ne _ _ (by omega : i + (j' + 1) ≠ i)
        simpa using h1
    | succ k' =>
      have hd : firstFailStep d = none := by
        have := hpre 0 (Nat.succ_pos k')
        simpa using this
      rw [contribs, hd, countLabel_append]
      have hk' : k' < ds.length := by simpa using Nat.lt_of_succ_lt_succ hk
      cases j with
      | zero =>
        have h1 : countLabel (deviceContrib n i d) (deviceLabels (i + 0) (List.get (d :: ds) ⟨0, hj⟩)) = 1 := by
          have := countLabel_deviceContrib_self n i d
          rw [hd] at this
          simpa using this
        have h2 : countLabel (contribs n (i + 1) ds) (deviceLabels (i + 0) (List.get (d :: ds) ⟨0, hj⟩)) = 0 := by
          refine countLabel_contribs_of_lt (fun j' hj' => ?_)
          simp only [List.get]
          exact deviceLabels_ne_of_index_ne _ _ (by omega : i + 0 ≠ i + 1 + j')
        rw [h1, h2]
        simp
      | succ j' =>
        have hj' : j' < ds.length := by simpa using Nat.lt_of_succ_lt_succ hj
        have h1 : countLabel (deviceContrib n i d)
            (deviceLabels (i + (j' + 1)) (List.get (d :: ds) ⟨j' + 1, hj⟩)) = 0 := by
          refine countLabel_deviceContrib_ne _ _ _ _ ?_
          exact deviceLabels_ne_of_index_ne _ _ (by omega : i + (j' + 1) ≠ i)
        have hpre' : ∀ (j : Nat) (hjx : j < k'), firstFailStep (ds.get ⟨j, Nat.lt_trans hjx hk'⟩) = none := by
          intro jx hjx
          have := hpre (jx + 1) (Nat.succ_lt_succ hjx)
          simpa using this
        have hfail' : firstFailStep (ds.get ⟨k', hk'⟩) = some s := by
          simpa using hfail
        have h2 := ih k' s hk' hpre' hfail' (i + 1) j' hj'
        have harith : i + 1 + j' = i + (j' + 1) := by omega
        rw [harith] at h2
        rw [h1]
        simp only [List.get] at h2 ⊢
        rw [h2]
        by_cases hlt : j' < k'
        · simp [hlt, Nat.succ_lt_succ hlt]
        · have hlt2 : ¬ (j' + 1 < k' + 1) := by omega
          by_cases heq : j' = k'
          · simp [hlt, heq]
          · have heq2 : ¬ (j' + 1 = k' + 1) := by omega
            simp [hlt, heq, hlt2, heq2]

/-! ## Mutual exclusion of Collect executions -/

theorem listGetD_set {α : Type} (l : List α) (i j : Nat) (a d : α) :
    (l.set i a).getD j d = if i = j ∧ i < l.length then a else l.getD j d := by
  by_cases hij : i = j
  · subst hij
    by_cases hl : i < l.length
    · simp [List.getD_eq_getElem?_getD, List.getElem?_set, hl]
    · rw [List.set_eq_of_length_le (Nat.le_of_not_lt hl)]
      simp [hl]
  · simp [List.getD_eq_getElem?_getD, List.getElem?_set, hij]

theorem lt_length_of_remaining_ne_nil {σ : SysState} {t : Nat}
    (h : remainingOf σ t ≠ []) : t < σ.threads.length := by
  by_contra hge
  exact h (List.getD_eq_default _ _ (Nat.le_of_not_lt hge))

theorem remainingOf_set (σ : SysState) (h : Option Nat) (t t' : Nat) (rest : List Action) :
    remainingOf ⟨h, σ.threads.set t rest⟩ t' =
      if t = t' ∧ t < σ.threads.length then rest else remainingOf σ t' := by
  simp only [remainingOf, listGetD_set]

theorem suffix_lock {p : List Action} (hwf : WellFormedProg p) {rest : List Action}
    (hs : (Action.lock :: rest) <:+ p) : rest = p.tail := by
  obtain ⟨body, hp, hlb, hub⟩ := hwf
  subst hp
  rcases List.suffix_cons_iff.mp hs with h | h
  · simp only [List.cons.injEq, true_and] at h
    simpa using h
  · exfalso
    have hmem : Action.lock ∈ body ++ [Action.unlock] := h.subset (by simp)
    rcases List.mem_append.mp hmem with h1 | h1
    · exact hlb h1
    · simp at h1

theorem suffix_unlock_rest_nil {body : List Action} (hub : Action.unlock ∉ body) :
    ∀ {rest : List Action}, (Action.unlock :: rest) <:+ body ++ [Action.unlock] → rest = [] := by
  induction body with
  | nil =>
    intro rest h
    simp only [List.nil_append] at h
    rcases List.suffix_cons_iff.mp h with h1 | h1
    · simp only [List.cons.injEq, true_and] at h1
      exact h1
    · exfalso
      have := h1.length_le
      simp at this
  | cons b body ih =>
    intro rest h
    simp only [List.cons_append] at h
    rcases List.suffix_cons_iff.mp h with h1 | h1
    · exfalso
      simp only [List.cons.injEq] at h1
      simp only [List.mem_cons, not_or] at hub
      exact hub.1 h1.1
    · have hub' : Action.unlock ∉ body := by
        simp only [List.mem_cons, not_or] at hub
        exact hub.2
      exact ih hub' h1

theorem suffix_unlock {p : List Action} (hwf : WellFormedProg p) {rest : List Action}
    (hs : (Action.unlock :: rest) <:+ p) : rest = [] := by
  obtain ⟨body, hp, hlb, hub⟩ := hwf
  subst hp
  rcases List.suffix_cons_iff.mp hs with h | h
  · exfalso
    simp at h
  · exact suffix_unlock_rest_nil hub h

theorem suffix_body {p : List Action} (hwf : WellFormedProg p) {a : Action} {rest : List Action}
    (hs : (a :: rest) <:+ p) (hl : a ≠ Action.lock) (hu : a ≠ Action.unlock) :
    (a :: rest) <:+ p.tail ∧ rest ≠ [] := by
  obtain ⟨body, hp, hlb, hub⟩ := hwf
  subst hp
  rcases List.suffix_cons_iff.mp hs with h | h
  · exfalso
    simp only [List.cons.injEq] at h
    exact hl h.1
  · constructor
    · simpa using h
    · intro hrest
      subst hrest
      obtain ⟨t, ht⟩ := h
      have h2 := (List.append_inj' ht (by simp)).2
      simp only [List.cons.injEq] at h2
      exact hu h2.1

theorem not_inCrit_init {progs : List (List Action)}
    (hwf : ∀ p ∈ progs, WellFormedProg p) (t : Nat) :
    ¬ inCrit progs (initState progs) t := by
  rintro ⟨hne, hsuf⟩
  have hlt : t < progs.length := by
    have hx := lt_length_of_remaining_ne_nil (σ := initState progs) hne
    simpa [initState] using hx
  have hpmem : progs.getD t [] ∈ progs := by
    rw [List.getD_eq_getElem _ _ hlt]
    exact List.getElem_mem _
  obtain ⟨body, hpe, _, _⟩ := hwf _ hpmem
  have hrem : remainingOf (initState progs) t = progs.getD t [] := rfl
  rw [hrem, hpe] at hsuf
  have := hsuf.length_le
  simp at this

theorem mutexInv_step {progs : List (List Action)} {σ σ' : SysState}
    (hwf : ∀ p ∈ progs, WellFormedProg p) (hinv : MutexInv progs σ)
    (hstep : SysStep σ σ') : MutexInv progs σ' := by
  obtain ⟨hlen, hsuf, hcrit⟩ := hinv
  cases hstep with
  | lockStep t rest hp hfree =>
    have hlt : t < σ.threads.length := lt_length_of_remaining_ne_nil (by rw [hp]; simp)
    have hplt : t < progs.length := hlen ▸ hlt
    have hpmem : progs.getD t [] ∈ progs := by
      rw [List.getD_eq_getElem _ _ hplt]
      exact List.getElem_mem _
    have hwfp := hwf _ hpmem
    have hrest : rest = (progs.getD t []).tail := suffix_lock hwfp (hp ▸ hsuf t)
    obtain ⟨body, hpe, hlb, hub⟩ := hwfp
    have hremt : remainingOf ⟨some t, σ.threads.set t rest⟩ t = rest := by
      rw [remainingOf_set]
      simp [hlt]
    have hremo : ∀ t', t ≠ t' →
        remainingOf ⟨some t, σ.threads.set t rest⟩ t' = remainingOf σ t' := by
      intro t' ht'
      rw [remainingOf_set]
      simp [ht']
    refine ⟨by simpa using hlen, ?_, ?_⟩
    · intro t'
      by_cases hteq : t = t'
      · subst hteq
        rw [hremt, hrest, hpe]
        simp [List.suffix_cons]
      · rw [hremo t' hteq]
        exact hsuf t'
    · intro t'
      by_cases hteq : t = t'
      · subst hteq
        simp only [inCrit, hremt]
        have h1 : rest ≠ [] := by
          rw [hrest, hpe]
          simp
        have h2 : rest <:+ (progs.getD t []).tail := by
          rw [hrest]
        exact iff_of_true ⟨h1, h2⟩ trivial
      · have hno : ¬ inCrit progs σ t' := by
          rw [hcrit t', hfree]
          simp
        simp only [inCrit, hremo t' hteq]
        constructor
        · intro hc
          exact absurd hc hno
        · intro hh
          exact absurd (Option.some.inj hh) hteq
  | bodyStep t a rest hp hl hu =>
    have hlt : t < σ.threads.length := lt_length_of_remaining_ne_nil (by rw [hp]; simp)
    have hplt : t < progs.length := hlen ▸ hlt
    have hpmem : progs.getD t [] ∈ progs := by
      rw [List.getD_eq_getElem _ _ hplt]
      exact List.getElem_mem _
    have hwfp := hwf _ hpmem
    obtain ⟨hsb, hrne⟩ := suffix_body hwfp (hp ▸ hsuf t) hl hu
    have hin : inCrit progs σ t := ⟨by rw [hp]; simp, by rw [hp]; exact hsb⟩
    have hhold : σ.holder = some t := (hcrit t).mp hin
    have hremt : remainingOf ⟨σ.holder, σ.threads.set t rest⟩ t = rest := by
      rw [remainingOf_set]
      simp [hlt]
    have hremo : ∀ t', t ≠ t' →
        remainingOf ⟨σ.holder, σ.threads.set t rest⟩ t' = remainingOf σ t' := by
      intro t' ht'
      rw [remainingOf_set]
      simp [ht']
    refine ⟨by simpa using hlen, ?_, ?_⟩
    · intro t'
      by_cases hteq : t = t'
      · subst hteq
        rw [hremt]
        exact (List.suffix_cons a rest).trans (hp ▸ hsuf t)
      · rw [hremo t' hteq]
        exact hsuf t'
    · intro t'
      by_cases hteq : t = t'
      · subst hteq
        simp only [inCrit, hremt]
        have h2 : rest <:+ (progs.getD t []).tail := (List.suffix_cons a rest).trans hsb
        exact iff_of_true ⟨hrne, h2⟩ hhold
      · simp only [inCrit, hremo t' hteq]
        exact hcrit t'
  | unlockStep t rest hp hheld =>
    have hlt : t < σ.threads.length := lt_length_of_remaining_ne_nil (by rw [hp]; simp)
    have hplt : t < progs.length := hlen ▸ hlt
    have hpmem : progs.getD t [] ∈ progs := by
      rw [List.getD_eq_getElem _ _ hplt]
      exact List.getElem_mem _
    have hwfp := hwf _ hpmem
    have hrnil : rest = [] := suffix_unlock hwfp (hp ▸ hsuf t)
    subst hrnil
    have hremt : remainingOf ⟨none, σ.threads.set t []⟩ t = [] := by
      rw [remainingOf_set]
      simp [hlt]
    have hremo : ∀ t', t ≠ t' →
        remainingOf ⟨none, σ.threads.set t []⟩ t' = remainingOf σ t' := by
      intro t' ht'
      rw [remainingOf_set]
      simp [ht']
    refine ⟨by simpa using hlen, ?_, ?_⟩
    · intro t'
      by_cases hteq : t = t'
      · subst hteq
        rw [hremt]
        exact List.nil_suffix
      · rw [hremo t' hteq]
        exact hsuf t'
    · intro t'
      by_cases hteq : t = t'
      · subst hteq
        simp only [inCrit, hremt]
        simp
      · simp only [inCrit, hremo t' hteq]
        constructor
        · intro hc
          have hx := (hcrit t').mp hc
          rw [hheld] at hx
          exact absurd (Option.some.inj hx) hteq
        · intro hh
          exact Option.noConfusion hh

theorem mutexInv_reachable {progs : List (List Action)} {σ : SysState}
    (hwf : ∀ p ∈ progs, WellFormedProg p) (hreach : Reachable progs σ) :
    MutexInv progs σ := by
  induction hreach with
  | refl =>
    refine ⟨rfl, fun t => List.suffix_refl _, fun t => ?_⟩
    exact iff_of_false (not_inCrit_init hwf t) (by simp [initState])
  | tail _ hstep ih =>
    exact mutexInv_step hwf ih hstep

theorem mem_queryActions {a : Action} : ∀ (i : Nat) (ds : List Device),
    a ∈ queryActions i ds → ∃ idx s, a = Action.query idx s := by
  intro i ds
  induction ds generalizing i with
  | nil =>
    intro h
    simp [queryActions] at h
  | cons d ds ih =>
    intro h
    rw [queryActions] at h
    rcases hf : firstFailStep d with _ | s <;> rw [hf] at h
    · rcases List.mem_append.mp h with h1 | h1
      · simp only [deviceQueryActions, hf] at h1
        obtain ⟨st, _, he⟩ := List.mem_map.mp h1
        exact ⟨i, st, he.symm⟩
      · exact ih _ h1
    · simp only [deviceQueryActions, hf] at h
      obtain ⟨st, _, he⟩ := List.mem_map.mp h
      exact ⟨i, st, he.symm⟩

theorem collectActions_wellFormed (e : Exporter) : WellFormedProg (collectActions e) := by
  refine ⟨Action.reset :: (queryActions 0 e.devices ++ [Action.emit]), ?_, ?_, ?_⟩
  · simp [collectActions]
  · intro h
    rcases List.mem_cons.mp h with h1 | h1
    · exact absurd h1 (by simp)
    · rcases List.mem_append.mp h1 with h2 | h2
      · obtain ⟨idx, s, he⟩ := mem_queryActions _ _ h2
        exact absurd he (by simp)
      · simp at h2
  · intro h
    rcases List.mem_cons.mp h with h1 | h1
    · exact absurd h1 (by simp)
    · rcases List.mem_append.mp h1 with h2 | h2
      · obtain ⟨idx, s, he⟩ := mem_queryActions _ _ h2
        exact absurd he (by simp)
      · simp at h2

/-! ## Claim theorems -/

/-- C2: for every poll cycle in which every enumerated device is
processed through all five queries without error, the HealthFlag (up)
equals 1 and every enumerated device has exactly one sample, keyed by
(device index as string, device UUID, device name), in each of the nine
per-device MetricSeries. -/
theorem collect_success_complete_samples (e : Exporter)
    (hall : ∀ d ∈ e.devices, firstFailStep d = none) :
    (e.Collect.1).up = 1 ∧
    ∀ (n : MetricName) (j : Nat) (hj : j < e.devices.length),
      countLabel ((e.Collect.1).gauges n) (deviceLabels j (e.devices.get ⟨j, hj⟩)) = 1 := by
  rw [Collect_eq]
  have hb : e.devices.all (fun d => (firstFailStep d).isNone) = true := by
    rw [List.all_eq_true]
    intro d hd
    simp [hall d hd]
  refine ⟨by simp [hb], ?_⟩
  intro n j hj
  have hx := countLabel_contribs_success n e.devices hall 0 j hj
  simpa using hx

theorem collect_success_complete_samples_witness :
    (eOne.state.Collect.1).up = 1 ∧
    ∀ (n : MetricName) (j : Nat) (hj : j < eOne.state.devices.length),
      countLabel ((eOne.state.Collect.1).gauges n)
        (deviceLabels j (eOne.state.devices.get ⟨j, hj⟩)) = 1 :=
  collect_success_complete_samples eOne.state (by decide)

/-- C1: for every poll cycle in which device k is the first device to
fail, at query step s of the per-device sequence (utilization,
temperature, power, fan speed, memory info): devices before k have one
sample in every series, device k has samples only in the series of
steps strictly before s, devices after k have no samples, and the
HealthFlag (up) is 0. -/
theorem collect_failFast_partial_samples (e : Exporter) (k : Nat) (s : Step)
    (hk : k < e.devices.length)
    (hpre : ∀ (j : Nat) (hj : j < k),
      firstFailStep (e.devices.get ⟨j, Nat.lt_trans hj hk⟩) = none)
    (hfail : firstFailStep (e.devices.get ⟨k, hk⟩) = some s) :
    (e.Collect.1).up = 0 ∧
    ∀ (n : MetricName) (j : Nat) (hj : j < e.devices.length),
      countLabel ((e.Collect.1).gauges n) (deviceLabels j (e.devices.get ⟨j, hj⟩)) =
        if j < k then 1 else if j = k then (if n.step.pos < s.pos then 1 else 0) else 0 := by
  rw [Collect_eq]
  have hb : e.devices.all (fun d => (firstFailStep d).isNone) = false := by
    cases hba : e.devices.all (fun d => (firstFailStep d).isNone) with
    | false => rfl
    | true =>
      exfalso
      rw [List.all_eq_true] at hba
      have hx := hba (e.devices.get ⟨k, hk⟩) (List.get_mem _ _ _)
      rw [hfail] at hx
      simp at hx
  refine ⟨by simp [hb], ?_⟩
  intro n j hj
  have hx := countLabel_contribs_fail n e.devices k s hk hpre hfail 0 j hj
  simpa using hx

theorem collect_failFast_partial_samples_witness :
    (eTwo.state.Collect.1).up = 0 ∧
    countLabel ((eTwo.state.Collect.1).gauges MetricName.gpu_percent)
      (deviceLabels 1 dFailTemp) = 1 ∧
    countLabel ((eTwo.state.Collect.1).gauges MetricName.temperature_celsius)
      (deviceLabels 1 dFailTemp) = 0 ∧
    countLabel ((eTwo.state.Collect.1).gauges MetricName.temperature_celsius)
      (deviceLabels 0 dOK) = 1 := by
  have h := collect_failFast_partial_samples eTwo.state 1 Step.temp (by decide)
    (fun j hj => by
      have hj0 : j = 0 := by omega
      subst hj0
      rfl)
    rfl
  refine ⟨h.1, ?_, ?_, ?_⟩
  · have hx := h.2 MetricName.gpu_percent 1 (by decide)
    simpa [Step.pos, MetricName.step] using hx
  · have hx := h.2 MetricName.temperature_celsius 1 (by decide)
    simpa [Step.pos, MetricName.step] using hx
  · have hx := h.2 MetricName.temperature_celsius 0 (by decide)
    simpa using hx

/-- C3: every poll cycle clears every MetricSeries before repopulating
it: the series contents after any Collect are exactly the samples of
the most recent cycle (a function of the current device readings alone,
independent of all prior gauge state), so every label tuple present was
written during the most recent cycle, by one of its devices. -/
theorem collect_no_stale_labels (e : Exporter) :
    (∀ n : MetricName, (e.Collect.1).gauges n = contribs n 0 e.devices) ∧
    (∀ (n : MetricName) (l : Labels),
      l ∈ ((e.Collect.1).gauges n).map Prod.fst →
      ∃ j, ∃ hj : j < e.devices.length, l = deviceLabels j (e.devices.get ⟨j, hj⟩)) := by
  rw [Collect_eq]
  refine ⟨fun n => rfl, fun n l h => ?_⟩
  obtain ⟨j, hj, hl⟩ := mem_fst_contribs (by simpa using h)
  exact ⟨j, hj, by simpa using hl⟩

theorem collect_no_stale_labels_witness :
    ∃ j, ∃ hj : j < eJunk.devices.length,
      ("0", "GPU-abc", "Test-GPU") = deviceLabels j (eJunk.devices.get ⟨j, hj⟩) :=
  (collect_no_stale_labels eJunk).2 MetricName.gpu_percent ("0", "GPU-abc", "Test-GPU")
    (by decide)

/-- C4: every Collect invocation emits the HealthFlag (up) sample
exactly once, after all MetricSeries samples, in every case: the
emitted list is the series samples followed by one up sample, and no
series sample is an up sample. -/
theorem collect_emits_up_once_last (e : Exporter) :
    ∃ samples u, (e.Collect).2 = samples ++ [Metric.upSample u] ∧
      ∀ m ∈ samples, ∀ v, m ≠ Metric.upSample v := by
  rw [Collect_eq]
  refine ⟨_, _, rfl, ?_⟩
  intro m hm v
  simp only [emitGauges, List.mem_flatMap, List.mem_map] at hm
  obtain ⟨n, hn, p, hp, rfl⟩ := hm
  simp

theorem collect_emits_up_once_last_witness :
    ∃ samples u, (eTwo.state.Collect).2 = samples ++ [Metric.upSample u] ∧
      ∀ m ∈ samples, ∀ v, m ≠ Metric.upSample v :=
  collect_emits_up_once_last eTwo.state

/-- C5: in the interleaving semantics of concurrent scrapes, where each
caller runs the action sequence of Exporter.Collect under the mutex, at
most one caller is ever inside the critical section, and any caller
about to execute a reset, device-query or emission action holds the
mutex, so the reset, query loop and sample emission form one atomic
unit and the device-query sequence is never executed by two callers at
once. -/
theorem collect_mutual_exclusion (es : List Exporter) (σ : SysState)
    (hreach : Reachable (es.map collectActions) σ) :
    (∀ t u, inCrit (es.map collectActions) σ t →
      inCrit (es.map collectActions) σ u → t = u) ∧
    (∀ (t : Nat) (a : Action) (rest : List Action),
      remainingOf σ t = a :: rest → a ≠ Action.lock → a ≠ Action.unlock →
      σ.holder = some t) := by
  have hwf : ∀ p ∈ es.map collectActions, WellFormedProg p := by
    intro p hp
    obtain ⟨e, _, rfl⟩ := List.mem_map.mp hp
    exact collectActions_wellFormed e
  obtain ⟨hlen, hsuf, hcrit⟩ := mutexInv_reachable hwf hreach
  constructor
  · intro t u ht hu
    have h1 := (hcrit t).mp ht
    have h2 := (hcrit u).mp hu
    rw [h1] at h2
    exact Option.some.inj h2
  · intro t a rest hp hl hu
    have hlt : t < σ.threads.length := lt_length_of_remaining_ne_nil (by rw [hp]; simp)
    have hplt : t < (es.map collectActions).length := hlen ▸ hlt
    have hpmem : (es.map collectActions).getD t [] ∈ es.map collectActions := by
      rw [List.getD_eq_getElem _ _ hplt]
      exact List.getElem_mem _
    have hwfp := hwf _ hpmem
    obtain ⟨hsb, _⟩ := suffix_body hwfp (hp ▸ hsuf t) hl hu
    exact (hcrit t).mp ⟨by rw [hp]; simp, by rw [hp]; exact hsb⟩

theorem collect_mutual_exclusion_witness :
    (∀ t u, inCrit ([eOne.state, eOne.state].map collectActions)
        (initState ([eOne.state, eOne.state].map collectActions)) t →
      inCrit ([eOne.state, eOne.state].map collectActions)
        (initState ([eOne.state, eOne.state].map collectActions)) u → t = u) ∧
    (∀ (t : Nat) (a : Action) (rest : List Action),
      remainingOf (initState ([eOne.state, eOne.state].map collectActions)) t = a :: rest →
      a ≠ Action.lock → a ≠ Action.unlock →
      (initState ([eOne.state, eOne.state].map collectActions)).holder = some t) :=
  collect_mutual_exclusion [eOne.state, eOne.state] _ Relation.ReflTransGen.refl

/-- C6: every Describe call on a constructed collector yields the same
descriptors, no matter how many Collect calls (succeeding or failing,
with arbitrary per-cycle device readings) run in between: the up
descriptor plus one descriptor per entry of the static catalog. -/
theorem describe_idempotent (devices0 : List Device) (dss : List (List Device)) :
    (runCollects (NewExporter devices0) dss).Describe = (NewExporter devices0).Describe ∧
    (runCollects (NewExporter devices0) dss).Describe =
      upDescStatic :: metricNames.map descOf := by
  have key : ∀ (e : ExporterFull) (ds2 : List (List Device)),
      (runCollects e ds2).Describe = e.Describe := by
    intro e ds2
    induction ds2 generalizing e with
    | nil => rfl
    | cons ds rest ih =>
      rw [runCollects, ih]
      rfl
  exact ⟨key _ _, by rw [key]; rfl⟩

/-- C7: for every temperature query that succeeds, Celsius is read as a
native integer and Fahrenheit is computed as F = C*9/5 + 32 with
truncating integer arithmetic; for Celsius = 70 the Fahrenheit reading
is 158. -/
theorem temperature_conversion (d : Device) (c : Nat)
    (h : d.tempResult = Except.ok c) :
    d.GetTemperature = Except.ok (c * 9 / 5 + 32, c) ∧
    (c = 70 → d.GetTemperature = Except.ok (158, 70)) := by
  constructor
  · simp [Device.GetTemperature, h, Except.map]
  · intro hc
    subst hc
    simp [Device.GetTemperature, h, Except.map]

theorem temperature_conversion_witness :
    dOK.GetTemperature = Except.ok (70 * 9 / 5 + 32, 70) ∧
    (70 = 70 → dOK.GetTemperature = Except.ok (158, 70)) :=
  temperature_conversion dOK 70 rfl

/-- C8: for every power query that succeeds, the published watts value
is the raw milliwatt reading divided by 1000 with truncating integer
division; 125500 milliwatts yield 125 watts. -/
theorem power_conversion (d : Device) (mw : Nat)
    (h : d.powerResult = Except.ok mw) :
    d.GetPowerUsage = Except.ok (mw / 1000) ∧
    deviceValue MetricName.power_watts d = ((mw / 1000 : Nat) : Int) ∧
    (mw = 125500 → d.GetPowerUsage = Except.ok 125) := by
  refine ⟨?_, ?_, ?_⟩
  · simp [Device.GetPowerUsage, h, Except.map]
  · simp [deviceValue, okD, Device.GetPowerUsage, h, Except.map]
  · intro hmw
    subst hmw
    simp [Device.GetPowerUsage, h, Except.map]

theorem power_conversion_witness :
    dOK.GetPowerUsage = Except.ok (125500 / 1000) ∧
    deviceValue MetricName.power_watts dOK = ((125500 / 1000 : Nat) : Int) ∧
    (125500 = 125500 → dOK.GetPowerUsage = Except.ok 125) :=
  power_conversion dOK 125500 rfl

/-- C9 counterexample: the device-source temperature operation
(Device.GetTemperature, src/nvml.go) does not return only the Celsius
integer: on a raw reading of 70 it returns the pair (158, 70), with the
Fahrenheit conversion already performed inside the device-source
layer. -/
theorem getTemperature_not_celsius_only :
    dOK.GetTemperature = Except.ok (158, 70) ∧
    ¬ (∀ (d : Device) (c : Nat), d.tempResult = Except.ok c →
        d.GetTemperature = Except.ok (c, c)) := by
  constructor
  · rfl
  · intro hall
    have h := hall dOK 70 rfl
    simp [Device.GetTemperature, dOK, Except.map] at h

/-- C9 amended: the device-source temperature operation returns the
pair (Fahrenheit, Celsius), with the Fahrenheit conversion performed
inside the device-source layer; the Collector publishes both components
unchanged into the fahrenheit and celsius series. -/
theorem temperature_derived_in_source_layer (d : Device) (c : Nat)
    (h : d.tempResult = Except.ok c) :
    d.GetTemperature = Except.ok (c * 9 / 5 + 32, c) ∧
    deviceValue MetricName.temperature_fahrenheit d = ((c * 9 / 5 + 32 : Nat) : Int) ∧
    deviceValue MetricName.temperature_celsius d = (c : Int) := by
  refine ⟨?_, ?_, ?_⟩ <;>
    simp [Device.GetTemperature, deviceValue, okD, h, Except.map]

theorem temperature_derived_in_source_layer_witness :
    dOK.GetTemperature = Except.ok (70 * 9 / 5 + 32, 70) ∧
    deviceValue MetricName.temperature_fahrenheit dOK = ((70 * 9 / 5 + 32 : Nat) : Int) ∧
    deviceValue MetricName.temperature_celsius dOK = (70 : Int) :=
  temperature_derived_in_source_layer dOK 70 rfl

/-- C10: when the enumerated device list is empty, Collect performs no
device queries, the HealthFlag (up) is emitted with value 1, and every
per-device MetricSeries is emitted with zero samples. -/
theorem collect_empty_devices (e : Exporter) (h : e.devices = []) :
    (e.Collect.1).up = 1 ∧ (∀ n, (e.Collect.1).gauges n = []) ∧
    (e.Collect).2 = [Metric.upSample 1] := by
  rw [Collect_eq]
  refine ⟨?_, ?_, ?_⟩ <;> simp [h, contribs, emitGauges, metricNames]

theorem collect_empty_devices_witness :
    (eEmpty.state.Collect.1).up = 1 ∧ (∀ n, (eEmpty.state.Collect.1).gauges n = []) ∧
    (eEmpty.state.Collect).2 = [Metric.upSample 1] :=
  collect_empty_devices eEmpty.state rfl

end NvidiaExporter
